import Mathlib

/-!
Shallow embedding of `src/ProjectSetUp.py` (a Blender add-on that creates and
reconciles a project's folder structure under a chosen root directory).

The filesystem is modelled by the state of the chosen root path: absent, a
non-directory file, or a directory with a list of immediate children, each a
named entry that is a directory or a non-directory file.  Recursive deletion
(`shutil.rmtree`) of a child removes the child entry wholesale; the claims
never look below the root's immediate children.  Host collaborators
(`bpy.ops.wm.save_as_mainfile`, `subprocess.Popen`) are modelled as oracles:
a flag or `Option` argument says whether the collaborator call raises.
-/

namespace ProjectSetUp

/-- Python `str` whitespace test (`str.strip` with no argument strips these),
restricted to the ASCII whitespace characters. -/
def pyIsSpace (c : Char) : Bool :=
  c == ' ' || c == '\t' || c == '\n' || c == '\r' || c == '\x0b' || c == '\x0c'

/-- Character-list form of Python `str.strip()`: drop whitespace from both
ends. -/
def pyStripChars (l : List Char) : List Char :=
  ((l.dropWhile pyIsSpace).reverse.dropWhile pyIsSpace).reverse

/-- Python `str.strip()`. -/
def pyStrip (s : String) : String := ⟨pyStripChars s.data⟩

/-- Character-list form of Python `str.split(',')`: split at every comma.
A split with an explicit separator never yields zero tokens: the empty
string splits to one empty token. -/
def pySplitCommaChars : List Char → List (List Char)
  | [] => [[]]
  | c :: rest =>
    if c == ',' then [] :: pySplitCommaChars rest
    else
      match pySplitCommaChars rest with
      | t :: ts => (c :: t) :: ts
      | [] => [[c]]

/-- Python `s.split(',')`. -/
def pySplit (s : String) : List String :=
  (pySplitCommaChars s.data).map String.mk

/-- Python `str.lower()` on one character (ASCII range). -/
def pyLowerChar (c : Char) : Char :=
  if 'A' ≤ c ∧ c ≤ 'Z' then Char.ofNat (c.toNat + 32) else c

/-- Python `str.lower()` (ASCII range). -/
def pyLower (s : String) : String := ⟨s.data.map pyLowerChar⟩

/-- Whether the second list begins with the first (needle, haystack). -/
def beginsWithChars : List Char → List Char → Bool
  | [], _ => true
  | _ :: _, [] => false
  | a :: as, b :: bs => (a == b) && beginsWithChars as bs

/-- Python `s.endswith(suffix)`. -/
def pyEndsWith (s suffix : String) : Bool :=
  beginsWithChars suffix.data.reverse s.data.reverse

/-- Kind of a filesystem entry: a directory, or a non-directory file. -/
inductive EntryKind
  | dir
  | file
deriving DecidableEq, Repr

/-- An immediate child of the root directory: a name together with its kind. -/
structure Entry where
  name : String
  kind : EntryKind
deriving DecidableEq, Repr

/-- Whether the entry is a directory. -/
def Entry.isDir (e : Entry) : Bool := e.kind = EntryKind.dir

/-- State of the path stored in `scene.directory_path`: it may not exist,
exist as a non-directory file, or exist as a directory with the given
immediate children. -/
inductive RootState
  | absent
  | file
  | dir (children : List Entry)
deriving DecidableEq, Repr

/-- The immediate children of the root (empty unless the root is a directory). -/
def rootChildren : RootState → List Entry
  | .dir cs => cs
  | _ => []

/-- Names of a list of entries, as returned by `os.listdir`. -/
def childNames (cs : List Entry) : List String := cs.map Entry.name

/-- OS-level errors raised by the filesystem calls the script makes. -/
inductive PyError
  | fileExists (name : String)
  | notADirectory (name : String)
  | fileNotFound (name : String)
deriving DecidableEq, Repr

/-- Status messages issued through `self.report`, tagged by which report
statement of the source produced them (ERROR or INFO severity is determined
by the constructor). -/
inductive Report
  | errorDirNotExist
  | errorCreatingFolder (name : String)
  | infoFoldersCreated
  | infoFoldersUpdated
  | infoFolderExistsSkipping (name : String)
  | errorUpdatingFolders
  | errorBlenderFolderNotExist
  | infoBlendSaved (path : String)
  | errorPureRefNotFound (path : String)
  | errorOpeningPureRef (reason : String)
  | errorInvalidPureRef
deriving DecidableEq, Repr

/-- Return value of a Blender operator's `execute`. -/
inductive OpResult
  | FINISHED
  | CANCELLED
deriving DecidableEq, Repr

/-- The mutable scene state the list-editing operators touch:
`scene.folder_list` (each entry reduced to its `name` string) and
`scene.active_folder_index`. -/
structure SceneState where
  folder_list : List String
  active_folder_index : Int
deriving DecidableEq, Repr

/-- `AddDefaultFolderOperator.execute`: clears `scene.folder_list`, splits the
preference string `default_folder_names` on commas, strips each token, and
appends one entry per token in order.  Always returns FINISHED. -/
def addDefaultFolders (scene : SceneState) (defaultFolderNames : String) :
    SceneState × OpResult :=
  let cleared : SceneState := { scene with folder_list := [] }
  let names := (pySplit defaultFolderNames).map pyStrip
  (names.foldl
    (fun sc n => { sc with folder_list := sc.folder_list ++ [n] }) cleared,
   .FINISHED)

/-- Token list of the Default-List Initializer as the spec describes it:
the template's comma-split, whitespace-trimmed tokens, in order. -/
def specCommaTokens (template : String) : List String :=
  (pySplit template).map pyStrip

/-- `RemoveFolderOperator.execute`: when `scene.folder_list` is non-empty
(Python truthiness of the collection) and `active_folder_index >= 0`, removes
the entry at that index (`collection.remove`, modelled by `List.eraseIdx`,
which is a no-op when the index is out of range) and resets the active index
to `-1`; otherwise changes nothing.  Always returns FINISHED. -/
def removeFolder (scene : SceneState) : SceneState × OpResult :=
  if scene.folder_list ≠ [] ∧ scene.active_folder_index ≥ 0 then
    ({ scene with
        folder_list := scene.folder_list.eraseIdx scene.active_folder_index.toNat,
        active_folder_index := -1 }, .FINISHED)
  else (scene, .FINISHED)

/-- `os.makedirs(directory_path / name, exist_ok=True)` over the root's
children: if an entry of that name exists and is a directory, succeed without
change (`exist_ok` suppresses the error only for directories); if it exists
and is a file, raise `FileExistsError`; otherwise create the directory. -/
def makedirsExistOk (cs : List Entry) (name : String) :
    Except PyError (List Entry) :=
  match cs.find? (fun e => e.name = name) with
  | some e => if e.isDir then .ok cs else .error (.fileExists name)
  | none => .ok (cs ++ [⟨name, .dir⟩])

/-- The per-entry loop of `CreateProjectOperator.execute`: for each name in
order, `os.makedirs(..., exist_ok=True)` inside a try; on the first error it
reports and returns CANCELLED, keeping the directories created so far. -/
def createFoldersLoop (cs : List Entry) : List String → List Entry × Report × OpResult
  | [] => (cs, .infoFoldersCreated, .FINISHED)
  | n :: rest =>
    match makedirsExistOk cs n with
    | .ok cs' => createFoldersLoop cs' rest
    | .error _ => (cs, .errorCreatingFolder n, .CANCELLED)

/-- `CreateProjectOperator.execute`: reports an error and CANCELLED when
`os.path.exists(directory_path)` is false; a root that exists as a
non-directory file passes that check, and every `os.makedirs` under it then
raises (reported as a folder-creation error), so with an empty folder list it
even reports success.  Over a directory root it runs `createFoldersLoop`. -/
def createProject (root : RootState) (names : List String) :
    RootState × Report × OpResult :=
  match root with
  | .absent => (.absent, .errorDirNotExist, .CANCELLED)
  | .file =>
    match names with
    | [] => (.file, .infoFoldersCreated, .FINISHED)
    | n :: _ => (.file, .errorCreatingFolder n, .CANCELLED)
  | .dir cs =>
    let r := createFoldersLoop cs names
    (.dir r.1, r.2)

/-- `os.mkdir(directory_path / folder_name)`: raises `FileExistsError` when an
entry of that name already exists, otherwise creates the directory. -/
def osMkdir (cs : List Entry) (name : String) : Except PyError (List Entry) :=
  if cs.any (fun e => e.name = name) then .error (.fileExists name)
  else .ok (cs ++ [⟨name, .dir⟩])

/-- `shutil.rmtree(directory_path / folder_name)`: recursively deletes the
entry of that name when it is a directory; raises `NotADirectoryError` when it
is a non-directory file, and `FileNotFoundError` when no such entry exists. -/
def rmtree : List Entry → String → Except PyError (List Entry)
  | [], n => .error (.fileNotFound n)
  | e :: rest, n =>
    if e.name = n then
      if e.isDir then .ok rest else .error (.notADirectory n)
    else
      match rmtree rest n with
      | .ok rest' => .ok (e :: rest')
      | .error err => .error err

/-- The create pass of `UpdateProjectOperator.execute`: `os.mkdir` for each
name in order; stops at the first error, returning the children reached so
far and the error. -/
def addPass (cs : List Entry) : List String → List Entry × Option PyError
  | [] => (cs, none)
  | n :: rest =>
    match osMkdir cs n with
    | .ok cs' => addPass cs' rest
    | .error err => (cs, some err)

/-- The delete pass of `UpdateProjectOperator.execute`: `shutil.rmtree` for
each name in order; stops at the first error, returning the children reached
so far and the error. -/
def removePass (cs : List Entry) : List String → List Entry × Option PyError
  | [] => (cs, none)
  | n :: rest =>
    match rmtree cs n with
    | .ok cs' => removePass cs' rest
    | .error err => (cs, some err)

/-- `folders_to_add = blender_folder_names - existing_folders`.  Python
iterates a set in unspecified order; the model enumerates the difference
deterministically from the deduplicated folder list. -/
def toCreate (names : List String) (cs : List Entry) : List String :=
  names.dedup.filter (fun n => decide (n ∉ childNames cs))

/-- `folders_to_remove = existing_folders - blender_folder_names`, enumerated
deterministically from the directory listing. -/
def toDelete (names : List String) (cs : List Entry) : List String :=
  (childNames cs).filter (fun n => decide (n ∉ names))

/-- `UpdateProjectOperator.execute`: reports an error and CANCELLED when
`os.path.exists(directory_path)` is false.  `os.listdir` is called outside
the try block, so a root that exists as a non-directory file raises an
uncaught `NotADirectoryError` (the `.error` result).  Over a directory root:
computes the two set differences, runs the create pass then the delete pass
inside a try; a `FileExistsError` is caught and reported as INFO with
FINISHED, any other exception is caught and reported as an error with
CANCELLED, keeping whatever intermediate state the passes reached. -/
def updateProject (root : RootState) (names : List String) :
    Except PyError (RootState × Report × OpResult) :=
  match root with
  | .absent => .ok (.absent, .errorDirNotExist, .CANCELLED)
  | .file => .error (.notADirectory "root")
  | .dir cs =>
    match addPass cs (toCreate names cs) with
    | (cs1, some (.fileExists n)) =>
        .ok (.dir cs1, .infoFolderExistsSkipping n, .FINISHED)
    | (cs1, some _) => .ok (.dir cs1, .errorUpdatingFolders, .CANCELLED)
    | (cs1, none) =>
      match removePass cs1 (toDelete names cs) with
      | (cs2, none) => .ok (.dir cs2, .infoFoldersUpdated, .FINISHED)
      | (cs2, some (.fileExists n)) =>
          .ok (.dir cs2, .infoFolderExistsSkipping n, .FINISHED)
      | (cs2, some _) => .ok (.dir cs2, .errorUpdatingFolders, .CANCELLED)

/-- The root's children after `UpdateProjectOperator.execute`, whatever the
reported outcome (empty when the run raised uncaught, or the root was not a
directory). -/
def updateChildren (root : RootState) (names : List String) : List Entry :=
  match updateProject root names with
  | .ok (root', _, _) => rootChildren root'
  | .error _ => []

/-- The derived directory contents that a successful reconciliation run
leaves behind: the surviving old children (those whose name is desired) in
their original order, followed by the newly created directories. -/
def reconciled (cs : List Entry) (names : List String) : List Entry :=
  cs.filter (fun e => decide (e.name ∈ names))
    ++ (toCreate names cs).map (fun n => Entry.mk n EntryKind.dir)

/-- `Path(directory_path) / "Blender"` existence test
(`blender_folder_path.exists()`): true exactly when the root is a directory
with a child of that name, of either kind. -/
def existsChild (root : RootState) (name : String) : Bool :=
  match root with
  | .dir cs => cs.any (fun e => e.name = name)
  | _ => false

/-- `SetBlendFileOperator.execute`: when `root/Blender` does not exist,
reports an error and returns CANCELLED without calling the host save; when it
exists, calls `bpy.ops.wm.save_as_mainfile` with exactly
`rootPath/Blender/<blendName>.blend`.  The save call is NOT inside any
try/except, so when the host collaborator raises (`saveRaises`), the
exception escapes `execute` (the `.error` outcome).  The first component
lists the paths passed to the save collaborator. -/
def setBlendFile (rootPath : String) (root : RootState) (blendName : String)
    (saveRaises : Bool) : List String × Except Unit (Report × OpResult) :=
  if existsChild root "Blender" then
    let savePath := rootPath ++ "/Blender/" ++ blendName ++ ".blend"
    if saveRaises then ([savePath], .error ())
    else ([savePath], .ok (.infoBlendSaved savePath, .FINISHED))
  else ([], .ok (.errorBlenderFolderNotExist, .CANCELLED))

/-- The body of the try block in `OpenPureRefOperator.execute`: when the path
is a file on disk, opens it and hands it to `subprocess.Popen`; a raise from
the OS layer (`launchErr = some reason`) surfaces as the `.error` of the
`Except`.  When the path is not a file, reports that the file was not found.
The first component lists the paths handed to the launcher. -/
def openPureRefTryBody (path : String) (isFileOnDisk : Bool)
    (launchErr : Option String) : List String × Except String (Option Report) :=
  if isFileOnDisk then
    match launchErr with
    | some reason => ([path], .error reason)
    | none => ([path], .ok none)
  else ([], .ok (some (.errorPureRefNotFound path)))

/-- `OpenPureRefOperator.execute`: when the path is non-empty and its
lowercase form ends in `.pur`, runs the try body and catches any exception it
raises, reporting it as an error; otherwise reports that a valid PureRef file
must be specified.  Always returns FINISHED.  The components are: paths
handed to the launcher, the report issued (none on a silent successful
launch), and the operator result. -/
def openPureRef (path : String) (isFileOnDisk : Bool)
    (launchErr : Option String) : List String × Option Report × OpResult :=
  if (path != "") && pyEndsWith (pyLower path) ".pur" then
    match openPureRefTryBody path isFileOnDisk launchErr with
    | (calls, .ok r) => (calls, r, .FINISHED)
    | (calls, .error reason) =>
        (calls, some (.errorOpeningPureRef reason), .FINISHED)
  else ([], some .errorInvalidPureRef, .FINISHED)

/-! ## Helper lemmas -/

/-- Appending folder entries one by one with `foldl` appends the whole list. -/
lemma foldl_append_folder_list (l : List String) (sc : SceneState) :
    (l.foldl (fun sc n => { sc with folder_list := sc.folder_list ++ [n] }) sc).folder_list
      = sc.folder_list ++ l := by
  induction l generalizing sc with
  | nil => simp
  | cons n rest ih => simp [List.foldl_cons, ih]

/-- Erasing an index shortens a list by at most one. -/
lemma length_le_length_eraseIdx_add_one (l : List String) (i : Nat) :
    l.length ≤ (l.eraseIdx i).length + 1 := by
  rw [List.length_eraseIdx]
  split <;> omega

/-! ## C2 -/

/-- C2 counterexample: on the empty template, `AddDefaultFolderOperator`
produces one folder entry whose name is the empty string, not an empty
folder list, because Python `"".split(",")` is `[""]`. -/
theorem populateDefaults_empty_template_counterexample :
    (addDefaultFolders ⟨[], 0⟩ "").1.folder_list = [""] ∧
    (addDefaultFolders ⟨[], 0⟩ "").1.folder_list ≠ [] := by
  constructor <;> decide

/-- C2 (amended): for every scene and template, `AddDefaultFolderOperator`
clears the folder list and leaves exactly the template's comma-split,
whitespace-trimmed tokens, in token order (one entry per token of the split,
which never has zero tokens: the empty template yields the single entry "");
it returns FINISHED and raises no error. -/
theorem populateDefaults_tokens (scene : SceneState) (t : String) :
    (addDefaultFolders scene t).1.folder_list = specCommaTokens t ∧
    (addDefaultFolders scene t).1.folder_list.length = (pySplit t).length ∧
    (addDefaultFolders scene t).2 = .FINISHED := by
  have hdef : (addDefaultFolders scene t).1
      = ((pySplit t).map pyStrip).foldl
          (fun sc n => { sc with folder_list := sc.folder_list ++ [n] })
          { scene with folder_list := [] } := rfl
  refine ⟨?_, ?_, rfl⟩
  · rw [hdef, foldl_append_folder_list]
    simp [specCommaTokens]
  · rw [hdef, foldl_append_folder_list]
    simp

/-! ## C10 -/

/-- C10: `RemoveFolderOperator.execute` leaves the scene unchanged when the
folder list is empty or the active index is negative; otherwise it removes
exactly the entry at the active index (when in range) and resets the active
index to `-1`; it always returns FINISHED, and two consecutive invocations
without reselection remove at most one entry. -/
theorem removeFolder_behavior (scene : SceneState) :
    (scene.folder_list = [] ∨ scene.active_folder_index < 0 →
      removeFolder scene = (scene, .FINISHED)) ∧
    (scene.folder_list ≠ [] → 0 ≤ scene.active_folder_index →
      (removeFolder scene).1.folder_list
          = scene.folder_list.eraseIdx scene.active_folder_index.toNat ∧
      (removeFolder scene).1.folder_list
          = scene.folder_list.take scene.active_folder_index.toNat
            ++ scene.folder_list.drop (scene.active_folder_index.toNat + 1) ∧
      (removeFolder scene).1.active_folder_index = -1) ∧
    (removeFolder scene).2 = .FINISHED ∧
    scene.folder_list.length ≤
      (removeFolder (removeFolder scene).1).1.folder_list.length + 1 := by
  by_cases h : scene.folder_list ≠ [] ∧ scene.active_folder_index ≥ 0
  · have hrw : removeFolder scene =
        ({ scene with
            folder_list := scene.folder_list.eraseIdx scene.active_folder_index.toNat,
            active_folder_index := -1 }, .FINISHED) := by
      simp [removeFolder, h]
    refine ⟨?_, ?_, ?_, ?_⟩
    · rintro (h1 | h1)
      · exact absurd h1 h.1
      · omega
    · intro _ _
      rw [hrw]
      exact ⟨rfl, List.eraseIdx_eq_take_drop_succ _ _, rfl⟩
    · rw [hrw]
    · rw [hrw]
      have h2 : removeFolder
          { scene with
            folder_list := scene.folder_list.eraseIdx scene.active_folder_index.toNat,
            active_folder_index := -1 } =
          ({ scene with
            folder_list := scene.folder_list.eraseIdx scene.active_folder_index.toNat,
            active_folder_index := -1 }, .FINISHED) := by
        simp [removeFolder]
      rw [h2]
      exact length_le_length_eraseIdx_add_one _ _
  · have hrw : removeFolder scene = (scene, .FINISHED) := by
      simp [removeFolder, h]
    refine ⟨fun _ => hrw, ?_, ?_, ?_⟩
    · intro h1 h2
      exact absurd ⟨h1, h2⟩ h
    · rw [hrw]
    · rw [hrw, hrw]
      exact Nat.le_succ _

/-- C10 witness: a non-empty list with active index 0 loses exactly its first
entry and the index resets; an empty-list scene is untouched; a second
invocation removes nothing further. -/
theorem removeFolder_behavior_witness :
    removeFolder ⟨[], 5⟩ = (⟨[], 5⟩, .FINISHED) ∧
    (removeFolder ⟨["A", "B"], 0⟩).1.folder_list = ["B"] ∧
    (removeFolder ⟨["A", "B"], 0⟩).1.active_folder_index = -1 ∧
    (["A", "B"] : List String).length ≤
      (removeFolder (removeFolder ⟨["A", "B"], 0⟩).1).1.folder_list.length + 1 := by
  refine ⟨(removeFolder_behavior ⟨[], 5⟩).1 (Or.inl rfl), ?_, ?_, ?_⟩
  · have h := ((removeFolder_behavior ⟨["A", "B"], 0⟩).2.1 (by decide) (by decide)).1
    simpa using h
  · exact ((removeFolder_behavior ⟨["A", "B"], 0⟩).2.1 (by decide) (by decide)).2.2
  · exact (removeFolder_behavior ⟨["A", "B"], 0⟩).2.2.2

/-! ## C5 -/

/-- C5 counterexample: with a root that exists but is a non-directory file,
`CreateProjectOperator` with an empty folder list passes the existence check
and even reports success (no InvalidRoot failure), and
`UpdateProjectOperator` raises an uncaught listing error instead of failing
with InvalidRoot. -/
theorem invalid_root_counterexample :
    createProject .file [] = (.file, .infoFoldersCreated, .FINISHED) ∧
    updateProject .file ["A"] = .error (.notADirectory "root") :=
  ⟨rfl, rfl⟩

/-- C5 (amended): both operators fail with the "Directory does not exist"
error, performing no filesystem mutation, precisely when the root does not
exist at all; a root that exists as a non-directory passes the
`os.path.exists` check — `CreateProjectOperator` then reports a per-folder
creation error (or success, when the folder list is empty), and
`UpdateProjectOperator` raises an uncaught directory-listing error. -/
theorem root_existence_check (names : List String) :
    createProject .absent names = (.absent, .errorDirNotExist, .CANCELLED) ∧
    updateProject .absent names = .ok (.absent, .errorDirNotExist, .CANCELLED) ∧
    createProject .file [] = (.file, .infoFoldersCreated, .FINISHED) ∧
    (∀ n rest, createProject .file (n :: rest)
      = (.file, .errorCreatingFolder n, .CANCELLED)) ∧
    updateProject .file names = .error (.notADirectory "root") :=
  ⟨rfl, rfl, rfl, fun _ _ => rfl, rfl⟩

/-! ## C7 -/

/-- C7: `SetBlendFileOperator.execute` fails with the missing-folder error and
never invokes the host save collaborator when no entry named "Blender" exists
under the root; when it exists, the collaborator is invoked with exactly
`rootPath/Blender/<blendName>.blend`. -/
theorem saveInto_convention_folder (rootPath : String) (root : RootState)
    (blendName : String) (saveRaises : Bool) :
    (existsChild root "Blender" = false →
      setBlendFile rootPath root blendName saveRaises
        = ([], .ok (.errorBlenderFolderNotExist, .CANCELLED))) ∧
    (existsChild root "Blender" = true →
      (setBlendFile rootPath root blendName saveRaises).1
        = [rootPath ++ "/Blender/" ++ blendName ++ ".blend"]) := by
  constructor
  · intro h
    simp [setBlendFile, h]
  · intro h
    cases saveRaises <;> simp [setBlendFile, h]

/-- C7 witness: without a "Blender" child the save collaborator is not
invoked and the operator cancels; with one, the collaborator receives the
conventional path. -/
theorem saveInto_convention_folder_witness :
    existsChild (.dir []) "Blender" = false ∧
    setBlendFile "/proj" (.dir []) "scene" false
      = ([], .ok (.errorBlenderFolderNotExist, .CANCELLED)) ∧
    existsChild (.dir [⟨"Blender", .dir⟩]) "Blender" = true ∧
    (setBlendFile "/proj" (.dir [⟨"Blender", .dir⟩]) "scene" false).1
      = ["/proj/Blender/scene.blend"] := by
  refine ⟨by decide, (saveInto_convention_folder "/proj" (.dir []) "scene" false).1 (by decide),
    by decide, ?_⟩
  rw [(saveInto_convention_folder "/proj" (.dir [⟨"Blender", .dir⟩]) "scene" false).2 (by decide)]
  rfl

/-! ## C8 -/

/-- C8: `OpenPureRefOperator.execute` never hands a path to the OS launcher
when the path's lowercase form does not end in ".pur" (reporting the
invalid-reference error) or when the path is not a file on disk (reporting
one of the two invalid-reference errors); when the launch is attempted and
the OS layer raises, the exception is caught and surfaced as the
launch-failure report, with the operator still returning normally. -/
theorem openReference_guard (path : String) (isFileOnDisk : Bool)
    (launchErr : Option String) :
    (pyEndsWith (pyLower path) ".pur" = false →
      openPureRef path isFileOnDisk launchErr
        = ([], some .errorInvalidPureRef, .FINISHED)) ∧
    (isFileOnDisk = false →
      (openPureRef path isFileOnDisk launchErr).1 = [] ∧
      ((openPureRef path isFileOnDisk launchErr).2.1 = some .errorInvalidPureRef ∨
       (openPureRef path isFileOnDisk launchErr).2.1
          = some (.errorPureRefNotFound path))) ∧
    (∀ reason, launchErr = some reason → isFileOnDisk = true →
      pyEndsWith (pyLower path) ".pur" = true → path ≠ "" →
      openPureRef path isFileOnDisk launchErr
        = ([path], some (.errorOpeningPureRef reason), .FINISHED)) := by
  refine ⟨?_, ?_, ?_⟩
  · intro h
    simp [openPureRef, h]
  · intro h
    subst h
    by_cases hc : ((path != "") && pyEndsWith (pyLower path) ".pur") = true
    · refine ⟨?_, Or.inr ?_⟩ <;> simp [openPureRef, openPureRefTryBody, hc]
    · have hc' : ((path != "") && pyEndsWith (pyLower path) ".pur") = false := by
        simpa using hc
      refine ⟨?_, Or.inl ?_⟩ <;> simp [openPureRef, hc']
  · intro reason hr hf he hne
    subst hr
    subst hf
    have hb : (path != "") = true := by simpa using hne
    simp [openPureRef, openPureRefTryBody, hb, he]

/-- C8 witness: a `.txt` path is rejected without any launch; a `.pur` path
that is not a file on disk is rejected without any launch; a launch failure
on a valid path is caught and reported. -/
theorem openReference_guard_witness :
    openPureRef "x.txt" true none = ([], some .errorInvalidPureRef, .FINISHED) ∧
    (openPureRef "x.pur" false none).1 = [] ∧
    openPureRef "x.PUR" true (some "boom")
      = (["x.PUR"], some (.errorOpeningPureRef "boom"), .FINISHED) := by
  refine ⟨(openReference_guard "x.txt" true none).1 (by decide),
    ((openReference_guard "x.pur" false none).2.1 rfl).1,
    (openReference_guard "x.PUR" true (some "boom")).2.2 "boom" rfl rfl (by decide) (by decide)⟩

/-! ## C9 -/

/-- C9 counterexample: a failure of the host document-save collaborator
inside `SetBlendFileOperator.execute` escapes the action handler uncaught
(the save call is outside any try/except). -/
theorem exception_escape_counterexample :
    setBlendFile "/proj" (.dir [⟨"Blender", .dir⟩]) "scene" true
      = (["/proj/Blender/scene.blend"], .error ()) := rfl

/-- C9 (amended): `OpenPureRefOperator` catches every failure of its try body
at the action boundary and returns FINISHED with an error report, and
`CreateProjectOperator`/`UpdateProjectOperator` wrap their folder passes the
same way; but a failure of the host document-save call in
`SetBlendFileOperator` escapes its handler uncaught, and so does the
directory-listing failure in `UpdateProjectOperator` when the root exists
and is not a directory. -/
theorem action_boundary_exceptions :
    (∀ path isFileOnDisk launchErr,
      (openPureRef path isFileOnDisk launchErr).2.2 = .FINISHED) ∧
    (∀ path reason, pyEndsWith (pyLower path) ".pur" = true → path ≠ "" →
      (openPureRef path true (some reason)).2.1
        = some (.errorOpeningPureRef reason)) ∧
    (∀ rootPath root blendName, existsChild root "Blender" = true →
      (setBlendFile rootPath root blendName true).2 = .error ()) ∧
    (∀ names, updateProject .file names = .error (.notADirectory "root")) := by
  refine ⟨?_, ?_, ?_, fun _ => rfl⟩
  · intro path isFileOnDisk launchErr
    by_cases hc : ((path != "") && pyEndsWith (pyLower path) ".pur") = true
    · cases isFileOnDisk <;> cases launchErr <;>
        simp [openPureRef, openPureRefTryBody, hc]
    · have hc' : ((path != "") && pyEndsWith (pyLower path) ".pur") = false := by
        simpa using hc
      simp [openPureRef, hc']
  · intro path reason he hne
    have hb : (path != "") = true := by simpa using hne
    simp [openPureRef, openPureRefTryBody, hb, he]
  · intro rootPath root blendName h
    simp [setBlendFile, h]

/-- C9 witness: a launch failure is caught (FINISHED with a report), while a
save failure escapes. -/
theorem action_boundary_exceptions_witness :
    (openPureRef "x.pur" true (some "boom")).2.2 = .FINISHED ∧
    (openPureRef "x.pur" true (some "boom")).2.1
      = some (.errorOpeningPureRef "boom") ∧
    (setBlendFile "/proj" (.dir [⟨"Blender", .dir⟩]) "scene" true).2 = .error () := by
  refine ⟨action_boundary_exceptions.1 "x.pur" true (some "boom"),
    action_boundary_exceptions.2.1 "x.pur" "boom" (by decide) (by decide),
    action_boundary_exceptions.2.2.1 "/proj" (.dir [⟨"Blender", .dir⟩]) "scene" (by decide)⟩

/-! ## C1 -/

/-- C1 counterexample: with a root already containing a directory "Blender",
`CreateProjectOperator` run on the list ["Blender", "Textures"] does NOT fail
at the existing entry: `os.makedirs(..., exist_ok=True)` silently accepts it,
"Textures" is still created, and the call reports success; likewise the
second of two runs against an initially empty root succeeds instead of
failing on its first entry. -/
theorem createAll_collision_counterexample :
    createProject (.dir [⟨"Blender", .dir⟩]) ["Blender", "Textures"]
      = (.dir [⟨"Blender", .dir⟩, ⟨"Textures", .dir⟩],
         .infoFoldersCreated, .FINISHED) ∧
    createProject (createProject (.dir []) ["Blender", "Textures"]).1
        ["Blender", "Textures"]
      = ((createProject (.dir []) ["Blender", "Textures"]).1,
         .infoFoldersCreated, .FINISHED) :=
  ⟨rfl, rfl⟩

/-- When every child is a directory, the creation loop succeeds, keeps every
child a directory, and the resulting names are the old ones plus the
requested ones. -/
lemma createFoldersLoop_allDir (names : List String) : ∀ cs : List Entry,
    cs.all Entry.isDir = true →
    (createFoldersLoop cs names).2 = (.infoFoldersCreated, .FINISHED) ∧
    (createFoldersLoop cs names).1.all Entry.isDir = true ∧
    ∀ n, n ∈ childNames (createFoldersLoop cs names).1 ↔
      n ∈ childNames cs ∨ n ∈ names := by
  induction names with
  | nil =>
    intro cs h
    exact ⟨rfl, h, by simp [createFoldersLoop]⟩
  | cons n rest ih =>
    intro cs h
    cases hf : cs.find? (fun e => e.name = n) with
    | some e =>
      have he : e ∈ cs := List.mem_of_find?_eq_some hf
      have hname : e.name = n := by simpa using List.find?_some hf
      have hdir : e.isDir = true := by
        have hall := List.all_eq_true.mp h
        simpa using hall e he
      have hstep : createFoldersLoop cs (n :: rest) = createFoldersLoop cs rest := by
        simp [createFoldersLoop, makedirsExistOk, hf, hdir]
      rw [hstep]
      obtain ⟨h1, h2, h3⟩ := ih cs h
      refine ⟨h1, h2, fun m => ?_⟩
      rw [h3 m]
      have hmem : n ∈ childNames cs := by
        simp only [childNames, List.mem_map]
        exact ⟨e, he, hname⟩
      constructor
      · rintro (hm | hm)
        · exact Or.inl hm
        · exact Or.inr (List.mem_cons_of_mem _ hm)
      · rintro (hm | hm)
        · exact Or.inl hm
        · rcases List.mem_cons.mp hm with h' | h'
          · subst h'; exact Or.inl hmem
          · exact Or.inr h'
    | none =>
      have hstep : createFoldersLoop cs (n :: rest)
          = createFoldersLoop (cs ++ [⟨n, .dir⟩]) rest := by
        simp [createFoldersLoop, makedirsExistOk, hf]
      rw [hstep]
      have hall : (cs ++ [Entry.mk n EntryKind.dir]).all Entry.isDir = true := by
        simp only [List.all_append, h, Bool.true_and]
        simp [Entry.isDir]
      obtain ⟨h1, h2, h3⟩ := ih _ hall
      refine ⟨h1, h2, fun m => ?_⟩
      rw [h3 m]
      simp only [childNames, List.map_append, List.mem_append, List.map_cons,
        List.map_nil, List.mem_cons]
      tauto

/-- When every requested name already exists as a directory child, the
creation loop changes nothing and succeeds. -/
lemma createFoldersLoop_noop (names : List String) : ∀ cs : List Entry,
    cs.all Entry.isDir = true → (∀ n ∈ names, n ∈ childNames cs) →
    createFoldersLoop cs names = (cs, .infoFoldersCreated, .FINISHED) := by
  induction names with
  | nil => intro cs _ _; rfl
  | cons n rest ih =>
    intro cs h hmem
    have hn : n ∈ childNames cs := hmem n (List.mem_cons_self n rest)
    obtain ⟨e, he, hname⟩ : ∃ e ∈ cs, e.name = n := by
      simpa only [childNames, List.mem_map] using hn
    cases hf : cs.find? (fun e => e.name = n) with
    | none =>
      exact absurd (by simpa using List.find?_eq_none.mp hf e he) (by simp [hname])
    | some e' =>
      have he' : e' ∈ cs := List.mem_of_find?_eq_some hf
      have hdir : e'.isDir = true := by
        have hall := List.all_eq_true.mp h
        simpa using hall e' he'
      have hstep : createFoldersLoop cs (n :: rest) = createFoldersLoop cs rest := by
        simp [createFoldersLoop, makedirsExistOk, hf, hdir]
      rw [hstep]
      exact ih cs h (fun m hm => hmem m (List.mem_cons_of_mem _ hm))

/-- C1 (amended): over a directory root all of whose children are
directories, `CreateProjectOperator` processes the entries in order with
`exist_ok` creation — entries whose directory already exists are silently
accepted and missing ones created — reports success, and afterwards the
children's names are exactly the old names together with the requested ones;
a second identical run (in particular the second of two runs against an
initially empty root) succeeds and changes nothing. -/
theorem createAll_exist_ok (cs : List Entry) (names : List String)
    (h : cs.all Entry.isDir = true) :
    (createProject (.dir cs) names).2 = (.infoFoldersCreated, .FINISHED) ∧
    (∀ n, n ∈ childNames (rootChildren (createProject (.dir cs) names).1) ↔
        n ∈ childNames cs ∨ n ∈ names) ∧
    createProject (createProject (.dir cs) names).1 names
      = ((createProject (.dir cs) names).1, .infoFoldersCreated, .FINISHED) := by
  obtain ⟨h1, h2, h3⟩ := createFoldersLoop_allDir names cs h
  have hroot : (createProject (.dir cs) names).1
      = .dir (createFoldersLoop cs names).1 := rfl
  have hsnd : (createProject (.dir cs) names).2
      = (createFoldersLoop cs names).2 := rfl
  refine ⟨by rw [hsnd, h1], by rw [hroot]; exact h3, ?_⟩
  rw [hroot]
  have hnoop : createFoldersLoop (createFoldersLoop cs names).1 names
      = ((createFoldersLoop cs names).1, .infoFoldersCreated, .FINISHED) :=
    createFoldersLoop_noop names _ h2
      (fun m hm => (h3 m).mpr (Or.inr hm))
  show (RootState.dir (createFoldersLoop (createFoldersLoop cs names).1 names).1,
      (createFoldersLoop (createFoldersLoop cs names).1 names).2) = _
  rw [hnoop]

/-- C1 witness: starting from an empty root, creating ["Blender", "Textures"]
succeeds, both names are present afterwards, and re-running the identical
call succeeds without changing the directory. -/
theorem createAll_exist_ok_witness :
    (([] : List Entry).all Entry.isDir = true) ∧
    (createProject (.dir []) ["Blender", "Textures"]).2
      = (.infoFoldersCreated, .FINISHED) ∧
    ("Textures" ∈ childNames
        (rootChildren (createProject (.dir []) ["Blender", "Textures"]).1) ↔
      "Textures" ∈ childNames ([] : List Entry) ∨
        "Textures" ∈ ["Blender", "Textures"]) ∧
    createProject (createProject (.dir []) ["Blender", "Textures"]).1
        ["Blender", "Textures"]
      = ((createProject (.dir []) ["Blender", "Textures"]).1,
         .infoFoldersCreated, .FINISHED) := by
  have h := createAll_exist_ok [] ["Blender", "Textures"] (by decide)
  exact ⟨by decide, h.1, h.2.1 "Textures", h.2.2⟩

/-! ## Reconciliation machinery (C3, C4, C6) -/

/-- The names scheduled for creation are pairwise distinct. -/
lemma toCreate_nodup (names : List String) (cs : List Entry) :
    (toCreate names cs).Nodup :=
  (names.nodup_dedup).filter _

/-- Every name scheduled for creation is absent from the current listing. -/
lemma toCreate_fresh (names : List String) (cs : List Entry) :
    ∀ n ∈ toCreate names cs, n ∉ childNames cs := by
  intro n hn
  simp only [toCreate, List.mem_filter, decide_eq_true_eq] at hn
  exact hn.2

/-- Every name scheduled for creation is a desired name. -/
lemma toCreate_mem_names (names : List String) (cs : List Entry) :
    ∀ n ∈ toCreate names cs, n ∈ names := by
  intro n hn
  simp only [toCreate, List.mem_filter, List.mem_dedup] at hn
  exact hn.1

/-- Every name scheduled for deletion is a current child name that is not
desired. -/
lemma toDelete_mem (names : List String) (cs : List Entry) :
    ∀ n ∈ toDelete names cs, n ∈ childNames cs ∧ n ∉ names := by
  intro n hn
  simpa only [toDelete, List.mem_filter, decide_eq_true_eq] using hn

/-- The create pass over pairwise-distinct names absent from the listing
appends exactly those names as directories and raises nothing. -/
lemma addPass_fresh (ns : List String) : ∀ cs : List Entry, ns.Nodup →
    (∀ n ∈ ns, n ∉ childNames cs) →
    addPass cs ns = (cs ++ ns.map (fun n => Entry.mk n EntryKind.dir), none) := by
  induction ns with
  | nil => intro cs _ _; simp [addPass]
  | cons n rest ih =>
    intro cs hnd hfresh
    have hany : cs.any (fun e => e.name = n) = false := by
      rw [List.any_eq_false]
      intro e he
      simp only [decide_eq_true_eq]
      intro hn
      exact hfresh n (List.mem_cons_self n rest)
        (by simp only [childNames, List.mem_map]; exact ⟨e, he, hn⟩)
    have hstep : addPass cs (n :: rest)
        = addPass (cs ++ [Entry.mk n EntryKind.dir]) rest := by
      simp [addPass, osMkdir, hany]
    rw [hstep]
    have hfresh' : ∀ m ∈ rest, m ∉ childNames (cs ++ [Entry.mk n EntryKind.dir]) := by
      intro m hm
      simp only [childNames, List.map_append, List.mem_append, List.map_cons,
        List.map_nil, List.mem_cons, List.not_mem_nil]
      rintro (hc | hc | hc)
      · exact hfresh m (List.mem_cons_of_mem _ hm) hc
      · exact (List.nodup_cons.mp hnd).1 (hc ▸ hm)
      · exact hc
    rw [ih _ (List.nodup_cons.mp hnd).2 hfresh']
    simp

/-- Removing a name that occurs exactly once in the listing, as a directory,
succeeds and keeps exactly the other entries. -/
lemma rmtree_found_dir : ∀ (cs : List Entry) (n : String),
    (childNames cs).Nodup → (∃ e ∈ cs, e.name = n ∧ e.isDir = true) →
    rmtree cs n = .ok (cs.filter (fun e => decide (¬ e.name = n))) := by
  intro cs
  induction cs with
  | nil => intro n _ h; simp at h
  | cons e0 rest ih =>
    intro n hnd hex
    by_cases h0 : e0.name = n
    · have hdir : e0.isDir = true := by
        obtain ⟨e, he, hen, hed⟩ := hex
        rcases List.mem_cons.mp he with he | he
        · exact he ▸ hed
        · exfalso
          have : e0.name ∈ childNames rest := by
            rw [h0, ← hen]
            exact List.mem_map_of_mem Entry.name he
          exact (List.nodup_cons.mp hnd).1 this
      have hrest : rest.filter (fun e => !decide (e.name = n)) = rest := by
        rw [List.filter_eq_self]
        intro e he
        simp only [Bool.not_eq_true', decide_eq_false_iff_not]
        intro hen
        have : e0.name ∈ childNames rest := by
          rw [h0, ← hen]
          exact List.mem_map_of_mem Entry.name he
        exact (List.nodup_cons.mp hnd).1 this
      simp [rmtree, h0, hdir, List.filter_cons, hrest]
    · have hex' : ∃ e ∈ rest, e.name = n ∧ e.isDir = true := by
        obtain ⟨e, he, hen, hed⟩ := hex
        rcases List.mem_cons.mp he with he | he
        · exact absurd (he ▸ hen) h0
        · exact ⟨e, he, hen, hed⟩
      have hnd' : (childNames rest).Nodup := by
        simpa [childNames] using (List.nodup_cons.mp hnd).2
      simp [rmtree, h0, ih n hnd' hex', List.filter_cons]

/-- The delete pass over pairwise-distinct names, each present exactly once
as a directory child, deletes exactly those entries and raises nothing. -/
lemma removePass_filter (ns : List String) : ∀ cs : List Entry, ns.Nodup →
    (childNames cs).Nodup →
    (∀ n ∈ ns, ∃ e ∈ cs, e.name = n ∧ e.isDir = true) →
    removePass cs ns = (cs.filter (fun e => decide (e.name ∉ ns)), none) := by
  induction ns with
  | nil =>
    intro cs _ _ _
    have h : cs.filter (fun e => decide (e.name ∉ ([] : List String))) = cs := by
      rw [List.filter_eq_self]
      intro e _
      simp
    simp only [removePass]
    rw [h]
  | cons n rest ih =>
    intro cs hnd hcs hex
    have hrm := rmtree_found_dir cs n hcs (hex n (List.mem_cons_self n rest))
    have hstep : removePass cs (n :: rest)
        = removePass (cs.filter (fun e => decide (¬ e.name = n))) rest := by
      simp [removePass, hrm]
    rw [hstep]
    have hsub : List.Sublist (cs.filter (fun e => decide (¬ e.name = n))) cs :=
      List.filter_sublist cs
    have hcs1N : (childNames (cs.filter (fun e => decide (¬ e.name = n)))).Nodup :=
      List.Nodup.sublist (hsub.map Entry.name) hcs
    have hex1 : ∀ m ∈ rest,
        ∃ e ∈ cs.filter (fun e => decide (¬ e.name = n)), e.name = m ∧ e.isDir = true := by
      intro m hm
      obtain ⟨e, he, hen, hed⟩ := hex m (List.mem_cons_of_mem _ hm)
      refine ⟨e, ?_, hen, hed⟩
      rw [List.mem_filter]
      refine ⟨he, ?_⟩
      simp only [decide_eq_true_eq]
      intro hq
      have hmn : m = n := by rw [← hen, hq]
      exact (List.nodup_cons.mp hnd).1 (hmn ▸ hm)
    rw [ih _ (List.nodup_cons.mp hnd).2 hcs1N hex1]
    refine congrArg (fun l => (l, none)) ?_
    rw [List.filter_filter]
    apply List.filter_congr
    intro e _
    by_cases h1 : e.name = n <;> by_cases h2 : e.name ∈ rest <;> simp [h1, h2]

/-- Over a directory root with pairwise-distinct child names whose
non-desired children are all directories, `UpdateProjectOperator` succeeds
and leaves exactly the surviving desired children followed by the newly
created directories. -/
lemma updateProject_dir_eq (cs : List Entry) (names : List String)
    (hN : (childNames cs).Nodup)
    (hD : ∀ e ∈ cs, e.name ∉ names → e.isDir = true) :
    updateProject (.dir cs) names
      = .ok (.dir (reconciled cs names), .infoFoldersUpdated, .FINISHED) := by
  have hadd := addPass_fresh (toCreate names cs) cs (toCreate_nodup names cs)
    (toCreate_fresh names cs)
  have hnames1 : childNames
      (cs ++ (toCreate names cs).map (fun n => Entry.mk n EntryKind.dir))
      = childNames cs ++ toCreate names cs := by
    simp only [childNames, List.map_append, List.map_map]
    congr 1
    show List.map (fun n => n) (toCreate names cs) = toCreate names cs
    exact List.map_id _
  have hN1 : (childNames
      (cs ++ (toCreate names cs).map (fun n => Entry.mk n EntryKind.dir))).Nodup := by
    rw [hnames1]
    exact List.Nodup.append hN (toCreate_nodup names cs)
      (fun a ha hb => toCreate_fresh names cs a hb ha)
  have hwit : ∀ n ∈ toDelete names cs,
      ∃ e ∈ cs ++ (toCreate names cs).map (fun n => Entry.mk n EntryKind.dir),
        e.name = n ∧ e.isDir = true := by
    intro n hn
    obtain ⟨hmem, hnot⟩ := toDelete_mem names cs n hn
    obtain ⟨e, he, hen⟩ := List.mem_map.mp hmem
    exact ⟨e, List.mem_append_left _ he, hen, hD e he (hen ▸ hnot)⟩
  have hrem := removePass_filter (toDelete names cs)
    (cs ++ (toCreate names cs).map (fun n => Entry.mk n EntryKind.dir))
    (hN.filter _) hN1 hwit
  have hfilter : (cs ++ (toCreate names cs).map (fun n => Entry.mk n EntryKind.dir)).filter
        (fun e => decide (e.name ∉ toDelete names cs))
      = reconciled cs names := by
    rw [List.filter_append, reconciled]
    refine congrArg₂ (· ++ ·) ?_ ?_
    · apply List.filter_congr
      intro e he
      have hmem : e.name ∈ childNames cs := List.mem_map_of_mem Entry.name he
      by_cases hm : e.name ∈ names
      · simp [toDelete, List.mem_filter, hm]
      · simp [toDelete, List.mem_filter, hm, hmem]
    · rw [List.filter_eq_self]
      intro e he
      obtain ⟨n, hn, rfl⟩ := List.mem_map.mp he
      simp only [decide_eq_true_eq]
      intro hdel
      exact toCreate_fresh names cs n hn (toDelete_mem names cs _ hdel).1
  unfold updateProject
  simp only [hadd, hrem, hfilter]

/-- Appending newly created directories contributes exactly their names. -/
lemma childNames_append_created (cs : List Entry) (l : List String) :
    childNames (cs ++ l.map (fun n => Entry.mk n EntryKind.dir)) = childNames cs ++ l := by
  simp only [childNames, List.map_append, List.map_map]
  congr 1
  show List.map (fun n => n) l = l
  exact List.map_id _

/-- A name is among the reconciled children exactly when it is desired. -/
lemma mem_childNames_reconciled (cs : List Entry) (names : List String) (n : String) :
    n ∈ childNames (reconciled cs names) ↔ n ∈ names := by
  have hre : childNames (reconciled cs names)
      = childNames (cs.filter (fun e => decide (e.name ∈ names))) ++ toCreate names cs :=
    childNames_append_created _ _
  rw [hre, List.mem_append]
  constructor
  · rintro (hf | hc)
    · obtain ⟨e, he, rfl⟩ := List.mem_map.mp hf
      have := (List.mem_filter.mp he).2
      simpa using this
    · exact toCreate_mem_names names cs n hc
  · intro hn
    by_cases hc : n ∈ childNames cs
    · obtain ⟨e, he, hen⟩ := List.mem_map.mp hc
      left
      exact List.mem_map.mpr ⟨e, List.mem_filter.mpr ⟨he, by simp [hen, hn]⟩, hen⟩
    · right
      simp only [toCreate, List.mem_filter, List.mem_dedup, decide_eq_true_eq]
      exact ⟨hn, hc⟩

/-! ## C3 -/

/-- C3: over an existing directory root with pairwise-distinct child names on
which no filesystem operation errs (equivalently: every child whose name is
not desired is a directory), reconciliation creates exactly the desired
names missing from the listing, keeps the desired surviving entries
untouched, deletes everything else, reports success, and the resulting set
of immediate children is exactly the set of distinct names in the folder
list. -/
theorem reconcile_set_difference (cs : List Entry) (names : List String)
    (hN : (childNames cs).Nodup)
    (hD : ∀ e ∈ cs, e.name ∉ names → e.isDir = true) :
    updateProject (.dir cs) names
      = .ok (.dir (reconciled cs names), .infoFoldersUpdated, .FINISHED) ∧
    (∀ n, n ∈ childNames (reconciled cs names) ↔ n ∈ names) ∧
    (∀ n ∈ toCreate names cs, n ∈ names ∧ n ∉ childNames cs) ∧
    (∀ n ∈ toDelete names cs, n ∈ childNames cs ∧ n ∉ names) ∧
    (∀ e ∈ cs, e.name ∈ names → e ∈ reconciled cs names) := by
  refine ⟨updateProject_dir_eq cs names hN hD,
    fun n => mem_childNames_reconciled cs names n,
    fun n hn => ⟨toCreate_mem_names names cs n hn, toCreate_fresh names cs n hn⟩,
    fun n hn => toDelete_mem names cs n hn, ?_⟩
  intro e he hm
  have : e ∈ cs.filter (fun e => decide (e.name ∈ names)) :=
    List.mem_filter.mpr ⟨he, by simpa using hm⟩
  exact List.mem_append_left _ this

/-- C3 witness: the spec's round trip, with actual children {A, B, C} and
desired names {B, C, D}: the run succeeds, A is deleted, D is created, B and
C remain, and the resulting children are exactly B, C, D. -/
theorem reconcile_set_difference_witness :
    (childNames [Entry.mk "A" EntryKind.dir, Entry.mk "B" EntryKind.dir,
      Entry.mk "C" EntryKind.dir]).Nodup ∧
    updateProject (.dir [Entry.mk "A" EntryKind.dir, Entry.mk "B" EntryKind.dir,
        Entry.mk "C" EntryKind.dir]) ["B", "C", "D"]
      = .ok (.dir [Entry.mk "B" EntryKind.dir, Entry.mk "C" EntryKind.dir,
          Entry.mk "D" EntryKind.dir], .infoFoldersUpdated, .FINISHED) ∧
    ("D" ∈ childNames (reconciled [Entry.mk "A" EntryKind.dir, Entry.mk "B" EntryKind.dir,
        Entry.mk "C" EntryKind.dir] ["B", "C", "D"]) ↔ "D" ∈ ["B", "C", "D"]) := by
  have h := reconcile_set_difference
    [Entry.mk "A" EntryKind.dir, Entry.mk "B" EntryKind.dir, Entry.mk "C" EntryKind.dir]
    ["B", "C", "D"] (by decide) (by decide)
  refine ⟨by decide, ?_, h.2.1 "D"⟩
  rw [h.1]
  rfl

/-! ## C6 -/

/-- C6: under the same no-error conditions, after one successful
reconciliation a second run with the unchanged folder list computes empty
creation and deletion sets and returns the directory contents unchanged. -/
theorem reconcile_idempotent (cs : List Entry) (names : List String)
    (hN : (childNames cs).Nodup)
    (hD : ∀ e ∈ cs, e.name ∉ names → e.isDir = true) :
    updateProject (.dir cs) names
      = .ok (.dir (reconciled cs names), .infoFoldersUpdated, .FINISHED) ∧
    toCreate names (reconciled cs names) = [] ∧
    toDelete names (reconciled cs names) = [] ∧
    updateProject (.dir (reconciled cs names)) names
      = .ok (.dir (reconciled cs names), .infoFoldersUpdated, .FINISHED) := by
  have h1 := updateProject_dir_eq cs names hN hD
  have h2 : toCreate names (reconciled cs names) = [] := by
    simp only [toCreate]
    rw [List.filter_eq_nil_iff]
    intro n hn
    simp only [decide_eq_true_eq, not_not]
    exact (mem_childNames_reconciled cs names n).mpr (List.mem_dedup.mp hn)
  have h3 : toDelete names (reconciled cs names) = [] := by
    simp only [toDelete]
    rw [List.filter_eq_nil_iff]
    intro n hn
    simp only [decide_eq_true_eq, not_not]
    exact (mem_childNames_reconciled cs names n).mp hn
  have hflt : (reconciled cs names).filter (fun e => decide (e.name ∈ names))
      = reconciled cs names := by
    rw [List.filter_eq_self]
    intro e he
    simp only [decide_eq_true_eq]
    exact (mem_childNames_reconciled cs names e.name).mp
      (List.mem_map_of_mem Entry.name he)
  have hN' : (childNames (reconciled cs names)).Nodup := by
    have hre : childNames (reconciled cs names)
        = childNames (cs.filter (fun e => decide (e.name ∈ names)))
          ++ toCreate names cs :=
      childNames_append_created _ _
    rw [hre]
    refine List.Nodup.append ?_ (toCreate_nodup names cs) ?_
    · exact List.Nodup.sublist ((List.filter_sublist cs).map Entry.name) hN
    · intro a ha hb
      obtain ⟨e, he, rfl⟩ := List.mem_map.mp ha
      exact toCreate_fresh names cs e.name hb
        (List.mem_map_of_mem Entry.name (List.mem_of_mem_filter he))
  have hD' : ∀ e ∈ reconciled cs names, e.name ∉ names → e.isDir = true := by
    intro e he hnm
    exact absurd ((mem_childNames_reconciled cs names e.name).mp
      (List.mem_map_of_mem Entry.name he)) hnm
  have h4 := updateProject_dir_eq (reconciled cs names) names hN' hD'
  have hfix : reconciled (reconciled cs names) names = reconciled cs names := by
    conv_lhs => rw [reconciled.eq_def]
    rw [h2, hflt]
    simp
  refine ⟨h1, h2, h3, ?_⟩
  rw [h4, hfix]

/-- C6 witness: a concrete root {A} with desired list ["B"]: the first run
succeeds, and the second computes empty difference sets and changes
nothing. -/
theorem reconcile_idempotent_witness :
    updateProject (.dir [Entry.mk "A" EntryKind.dir]) ["B"]
      = .ok (.dir (reconciled [Entry.mk "A" EntryKind.dir] ["B"]),
             .infoFoldersUpdated, .FINISHED) ∧
    toCreate ["B"] (reconciled [Entry.mk "A" EntryKind.dir] ["B"]) = [] ∧
    toDelete ["B"] (reconciled [Entry.mk "A" EntryKind.dir] ["B"]) = [] ∧
    updateProject (.dir (reconciled [Entry.mk "A" EntryKind.dir] ["B"])) ["B"]
      = .ok (.dir (reconciled [Entry.mk "A" EntryKind.dir] ["B"]),
             .infoFoldersUpdated, .FINISHED) :=
  reconcile_idempotent [Entry.mk "A" EntryKind.dir] ["B"] (by decide) (by decide)

/-! ## C4 -/

/-- C4 counterexample: a non-directory file in the root that is not in the
folder list is NOT deleted: `shutil.rmtree` raises on it, the exception is
caught and reported as an error with CANCELLED, and the file survives. -/
theorem reconcile_deletes_file_counterexample :
    updateProject (.dir [Entry.mk "junk" EntryKind.file]) []
      = .ok (.dir [Entry.mk "junk" EntryKind.file],
             .errorUpdatingFolders, .CANCELLED) ∧
    Entry.mk "junk" EntryKind.file
      ∈ updateChildren (.dir [Entry.mk "junk" EntryKind.file]) [] := by
  exact ⟨rfl, by decide⟩

/-- The create pass never removes an existing entry. -/
lemma addPass_mem (ns : List String) : ∀ (cs : List Entry) (e : Entry),
    e ∈ cs → e ∈ (addPass cs ns).1 := by
  induction ns with
  | nil => intro cs e he; simpa [addPass] using he
  | cons n rest ih =>
    intro cs e he
    by_cases h : cs.any (fun e => e.name = n) = true
    · simpa [addPass, osMkdir, h] using he
    · have h' : cs.any (fun e => e.name = n) = false := by simpa using h
      have hstep : addPass cs (n :: rest)
          = addPass (cs ++ [Entry.mk n EntryKind.dir]) rest := by
        simp [addPass, osMkdir, h']
      rw [hstep]
      exact ih _ e (List.mem_append_left _ he)

/-- A successful `rmtree` only ever removes a directory entry: every
non-directory entry survives it. -/
lemma rmtree_preserves_nondir : ∀ (cs : List Entry) (n : String) (cs' : List Entry),
    rmtree cs n = .ok cs' → ∀ e ∈ cs, e.isDir = false → e ∈ cs' := by
  intro cs
  induction cs with
  | nil => intro n cs' h; simp [rmtree] at h
  | cons e0 rest ih =>
    intro n cs' h e he hd
    by_cases h0 : e0.name = n
    · by_cases hdir : e0.isDir = true
      · have hcs' : cs' = rest := by
          simp only [rmtree, h0, hdir, if_true, if_pos] at h
          exact (Except.ok.injEq _ _).mp h.symm ▸ rfl
        subst hcs'
        rcases List.mem_cons.mp he with rfl | he'
        · rw [hdir] at hd; cases hd
        · exact he'
      · have hdir' : e0.isDir = false := by simpa using hdir
        simp [rmtree, h0, hdir'] at h
    · cases hr : rmtree rest n with
      | ok rest' =>
        have hcs' : cs' = e0 :: rest' := by
          simp only [rmtree, h0, if_false, if_neg, hr] at h
          exact ((Except.ok.injEq _ _).mp h).symm
        subst hcs'
        rcases List.mem_cons.mp he with rfl | he'
        · exact List.mem_cons_self _ _
        · exact List.mem_cons_of_mem _ (ih n rest' hr e he' hd)
      | error err =>
        simp [rmtree, h0, hr] at h

/-- The delete pass never removes a non-directory entry, whether or not it
stops early on an error. -/
lemma removePass_preserves_nondir (ns : List String) : ∀ (cs : List Entry) (e : Entry),
    e ∈ cs → e.isDir = false → e ∈ (removePass cs ns).1 := by
  induction ns with
  | nil => intro cs e he _; simpa [removePass] using he
  | cons n rest ih =>
    intro cs e he hd
    cases hr : rmtree cs n with
    | ok cs' =>
      have hstep : removePass cs (n :: rest) = removePass cs' rest := by
        simp [removePass, hr]
      rw [hstep]
      exact ih cs' e (rmtree_preserves_nondir cs n cs' hr e he hd) hd
    | error err =>
      have hstep : removePass cs (n :: rest) = (cs, some err) := by
        simp [removePass, hr]
      rw [hstep]
      exact he

/-- Whatever branch `UpdateProjectOperator` takes over a directory root, a
non-directory child always survives. -/
lemma updateChildren_dir_preserves_nondir (cs : List Entry) (names : List String) :
    ∀ e ∈ cs, e.isDir = false → e ∈ updateChildren (.dir cs) names := by
  intro e he hd
  have h1 : e ∈ (addPass cs (toCreate names cs)).1 := addPass_mem _ cs e he
  rcases haddr : addPass cs (toCreate names cs) with ⟨cs1, r1⟩
  rw [haddr] at h1
  have h2 : e ∈ (removePass cs1 (toDelete names cs)).1 :=
    removePass_preserves_nondir _ cs1 e h1 hd
  rcases hremr : removePass cs1 (toDelete names cs) with ⟨cs2, r2⟩
  rw [hremr] at h2
  unfold updateChildren updateProject
  simp only [haddr]
  match r1 with
  | none =>
    simp only [hremr]
    match r2 with
    | none => simpa [rootChildren] using h2
    | some (.fileExists m) => simpa [rootChildren] using h2
    | some (.notADirectory m) => simpa [rootChildren] using h2
    | some (.fileNotFound m) => simpa [rootChildren] using h2
  | some (.fileExists m) => simpa [rootChildren] using h1
  | some (.notADirectory m) => simpa [rootChildren] using h1
  | some (.fileNotFound m) => simpa [rootChildren] using h1

/-- C4 (amended): reconciliation attempts to delete, recursively and without
prompting, every immediate child whose name is not among the folder-list
names, and under the no-error conditions it does delete every such directory
child; but a non-directory file child is never deleted — `shutil.rmtree`
raises on it, the run reports an error, and the file survives. -/
theorem reconcile_delete_behavior (cs : List Entry) (names : List String) :
    ((childNames cs).Nodup → (∀ e ∈ cs, e.name ∉ names → e.isDir = true) →
      ∀ e ∈ cs, e.name ∉ names → e ∉ updateChildren (.dir cs) names) ∧
    (∀ e ∈ cs, e.isDir = false → e ∈ updateChildren (.dir cs) names) := by
  constructor
  · intro hN hD e he hnm
    have hupd := updateProject_dir_eq cs names hN hD
    have hch : updateChildren (.dir cs) names = reconciled cs names := by
      unfold updateChildren
      rw [hupd]
      rfl
    rw [hch]
    intro hmem
    rw [reconciled.eq_def] at hmem
    rcases List.mem_append.mp hmem with hf | hc
    · have := (List.mem_filter.mp hf).2
      simp only [decide_eq_true_eq] at this
      exact hnm this
    · obtain ⟨m, hm, he'⟩ := List.mem_map.mp hc
      subst he'
      exact toCreate_fresh names cs m hm (List.mem_map_of_mem Entry.name he)
  · exact updateChildren_dir_preserves_nondir cs names

/-- C4 witness: an unrecognized directory child A is deleted, while an
unrecognized file child survives the run. -/
theorem reconcile_delete_behavior_witness :
    Entry.mk "A" EntryKind.dir ∉ updateChildren
      (.dir [Entry.mk "A" EntryKind.dir, Entry.mk "junk" EntryKind.file])
      ["junk"] ∧
    Entry.mk "f" EntryKind.file
      ∈ updateChildren (.dir [Entry.mk "f" EntryKind.file]) [] := by
  constructor
  · exact (reconcile_delete_behavior
      [Entry.mk "A" EntryKind.dir, Entry.mk "junk" EntryKind.file] ["junk"]).1
      (by decide) (by decide) _ (by simp) (by decide)
  · exact (reconcile_delete_behavior [Entry.mk "f" EntryKind.file] []).2
      _ (by simp) rfl
